import Mathlib

/-!
Verification of the ImgAlg image-similarity program (src/src/main.rs).

The program reduces each input image to a fingerprint (delta-encoded squared
RGBA colors over a 16x16 grid) and compares two fingerprints positionally.
This file embeds the pure computational core of the program:

* `convert_to_rgba` — the color normalizer (main.rs lines 7-15);
* `_get_pixels_diff` — the fingerprint extractor's pixel loop
  (main.rs lines 45-72), modelled on the pixel buffer produced by the
  16x16 resize (the decoding / resizing done by the external `image`
  crate is taken as an arbitrary RGBA pixel list);
* `_get_diff` — the aggregate difference (main.rs lines 74-82);
* `similarity_percentage` — the similarity score (main.rs lines 85-93);
* `mainOutput` — the stdout lines of a successful run (main.rs lines 124-131).

Machine floats (`f32`/`f64`) are modelled as real numbers; `i32` values are
modelled as `ℤ` (all values reachable here are far below 2^31: channels are
at most 255, squared channels at most 65025, channel deltas at most 130050
in magnitude, and the aggregate difference is below 2^20). A Rust `panic!`
is modelled as the `none` value of an `Option`-returning function.
-/

set_option maxRecDepth 8000

namespace ImgAlg

/-- An 8-bit RGBA pixel value `(r, g, b, a)`; each channel is a byte.
The Rust code iterates `image::DynamicImage::pixels()`, whose items are
`(x, y, Rgba([r,g,b,a]))`; only the `Rgba` component (field `.2`) is ever
read, so the model keeps just the four channels. -/
abbrev Rgba : Type := ℕ × ℕ × ℕ × ℕ

/-- A squared color `[r^2, g^2, b^2]` as built at main.rs lines 56-60
(an `[i32; 3]`, modelled as a triple of integers). -/
abbrev Color : Type := ℤ × ℤ × ℤ

/-- One fingerprint entry: the componentwise difference of two squared
colors (a `Vec<i32>` of length 3 in the Rust code, main.rs lines 62-66). -/
abbrev Delta : Type := ℤ × ℤ × ℤ

/-- main.rs line 55: `*pixels.get(y * 16 + x).unwrap_or(&(0, 0, Rgba([0, 0, 0, 255])))`.
Out-of-bounds lookups yield the default opaque black pixel. -/
def pixelAt (pixels : List Rgba) (idx : ℕ) : Rgba :=
  pixels.getD idx (0, 0, 0, 255)

/-- main.rs lines 56-60: square the red, green and blue channels of a pixel
(`(pixel.2[c] as i32).pow(2)`); alpha is ignored. -/
def colorOf (p : Rgba) : Color :=
  ((p.1 : ℤ) ^ 2, (p.2.1 : ℤ) ^ 2, (p.2.2.1 : ℤ) ^ 2)

/-- The squared color of grid cell `i` (row-major index `i = y * 16 + x`). -/
def colorAtIdx (pixels : List Rgba) (i : ℕ) : Color :=
  colorOf (pixelAt pixels i)

/-- main.rs lines 62-66: the componentwise delta `color - prev`. -/
def mkDelta (c p : Color) : Delta :=
  (c.1 - p.1, c.2.1 - p.2.1, c.2.2 - p.2.2)

/-- The body of the double loop at main.rs lines 53-70, processing the given
list of `(x, y)` cells in order. The state is `(prev_color, result)`. A
`none` outcome models the `prev_color.unwrap()` call failing (a Rust panic):
it would be reached exactly when the emission branch runs with
`prev_color == None`. -/
def processCells (pixels : List Rgba) :
    List (ℕ × ℕ) → Option Color × List Delta → Option (Option Color × List Delta)
  | [], s => some s
  | (x, y) :: rest, s =>
    let color := colorOf (pixelAt pixels (y * 16 + x))
    if some color ≠ s.1 ∧ ¬(x = 0 ∧ y = 0) then
      match s.1 with
      | none => none
      | some prev => processCells pixels rest (some color, s.2 ++ [mkDelta color prev])
    else
      processCells pixels rest (some color, s.2)

/-- The cells visited by `for y in 0..16 { for x in 0..16 { ... } }`
(main.rs lines 53-54), in traversal order. -/
def gridCells : List (ℕ × ℕ) :=
  (List.range 16).flatMap (fun y => (List.range 16).map (fun x => (x, y)))

/-- main.rs lines 45-72, `_get_pixels_diff`, from the resized pixel buffer
on: run the extraction loop over the 16x16 grid and return the fingerprint.
`none` models a panic inside the loop. -/
def _get_pixels_diff (pixels : List Rgba) : Option (List Delta) :=
  (processCells pixels gridCells (none, [])).map Prod.snd

/-- Index-based version of the extraction loop, with the cell `(x, y)`
replaced by its row-major index `i = y * 16 + x` (so the `(0,0)` guard
becomes `i ≠ 0`), abstracted over the per-cell color function. Used to
reason about `processCells` by induction along `List.range'`. -/
def processIdx (c : ℕ → Color) :
    List ℕ → Option Color × List Delta → Option (Option Color × List Delta)
  | [], s => some s
  | i :: rest, s =>
    let color := c i
    if some color ≠ s.1 ∧ i ≠ 0 then
      match s.1 with
      | none => none
      | some prev => processIdx c rest (some color, s.2 ++ [mkDelta color prev])
    else
      processIdx c rest (some color, s.2)

/-- The fingerprint the loop is expected to produce: for each cell index
`i` from 1 to 255 in order, emit `c i - c (i-1)` exactly when the squared
color changed from the previous cell. -/
def fingerprintSpec (c : ℕ → Color) : List Delta :=
  (List.range' 1 255).filterMap (fun i =>
    if c i ≠ c (i - 1) then some (mkDelta (c i) (c (i - 1))) else none)

lemma processCells_eq_processIdx (pixels : List Rgba) :
    ∀ (l : List (ℕ × ℕ)), (∀ xy ∈ l, xy.1 < 16) →
    ∀ (s : Option Color × List Delta),
    processCells pixels l s =
      processIdx (colorAtIdx pixels) (l.map (fun xy => xy.2 * 16 + xy.1)) s := by
  intro l
  induction l with
  | nil => intro _ s; rfl
  | cons xy rest ih =>
    intro h s
    obtain ⟨x, y⟩ := xy
    have hx : x < 16 := h (x, y) (List.mem_cons_self _ _)
    have hrest : ∀ xy ∈ rest, xy.1 < 16 := fun z hz => h z (List.mem_cons_of_mem _ hz)
    have hguard : (¬(x = 0 ∧ y = 0)) ↔ (y * 16 + x ≠ 0) := by omega
    simp only [processCells, processIdx, List.map_cons, colorAtIdx]
    by_cases hc : some (colorOf (pixelAt pixels (y * 16 + x))) ≠ s.1
    · by_cases hz : x = 0 ∧ y = 0
      · have hz' : ¬(y * 16 + x ≠ 0) := by omega
        rw [if_neg (by tauto), if_neg (by tauto)]
        exact ih hrest _
      · have hz' : y * 16 + x ≠ 0 := hguard.mp hz
        rw [if_pos ⟨hc, hz⟩, if_pos ⟨hc, hz'⟩]
        cases hs : s.1 with
        | none => rfl
        | some prev => exact ih hrest _
    · rw [if_neg (by tauto), if_neg (by tauto)]
      exact ih hrest _

lemma processIdx_range' (c : ℕ → Color) :
    ∀ (n k : ℕ), 1 ≤ k → ∀ (acc : List Delta),
    processIdx c (List.range' k n) (some (c (k - 1)), acc) =
      some (some (c (k + n - 1)),
        acc ++ (List.range' k n).filterMap (fun i =>
          if c i ≠ c (i - 1) then some (mkDelta (c i) (c (i - 1))) else none)) := by
  intro n
  induction n with
  | zero => intro k hk acc; simp [processIdx]
  | succ n ih =>
    intro k hk acc
    rw [List.range'_succ]
    by_cases hch : c k ≠ c (k - 1)
    · have hk0 : k ≠ 0 := by omega
      simp only [processIdx, List.filterMap_cons]
      rw [if_pos ⟨by simpa using hch, hk0⟩, if_pos hch]
      have := ih (k + 1) (by omega) (acc ++ [mkDelta (c k) (c (k - 1))])
      simp only [Nat.add_sub_cancel] at this
      rw [this]
      have harith : k + 1 + n - 1 = k + (n + 1) - 1 := by omega
      rw [harith, List.append_assoc]
      rfl
    · push_neg at hch
      simp only [processIdx, List.filterMap_cons]
      rw [if_neg (by simp [hch]), if_neg (by simp [hch])]
      have := ih (k + 1) (by omega) acc
      simp only [Nat.add_sub_cancel] at this
      rw [this]
      have harith : k + 1 + n - 1 = k + (n + 1) - 1 := by omega
      rw [harith]

lemma gridCells_cols : ∀ xy ∈ gridCells, xy.1 < 16 := by decide

lemma gridCells_indices :
    gridCells.map (fun xy => xy.2 * 16 + xy.1) = List.range 256 := by decide

lemma range_256_eq : List.range 256 = 0 :: List.range' 1 255 := by
  rw [List.range_eq_range']
  rfl

lemma processIdx_zero_step (c : ℕ → Color) (rest : List ℕ) (acc : List Delta) :
    processIdx c (0 :: rest) (none, acc) = processIdx c rest (some (c 0), acc) := by
  simp [processIdx]

/-- The extraction loop never hits the `unwrap` failure and computes exactly
the changed-cell deltas over indices 1..255. -/
lemma get_pixels_diff_eq_spec (pixels : List Rgba) :
    _get_pixels_diff pixels = some (fingerprintSpec (colorAtIdx pixels)) := by
  have key := processIdx_range' (colorAtIdx pixels) 255 1 (by omega) []
  simp only [Nat.sub_self] at key
  unfold _get_pixels_diff fingerprintSpec
  rw [processCells_eq_processIdx pixels gridCells gridCells_cols,
      gridCells_indices, range_256_eq]
  rw [processIdx_zero_step (colorAtIdx pixels) (List.range' 1 255) [], key]
  simp only [Option.map_some', List.nil_append]

/-- The three channel values of an indexed fingerprint entry, as read by
`self.images[k].0[i][c]` at main.rs lines 77-79. The index `i` is always in
bounds there (it ranges below both lengths), so the `getD` default is never
read; it only keeps the lookup total. -/
def deltaGet (fp : List Delta) (i : ℕ) : Delta :=
  fp.getD i (0, 0, 0)

/-- main.rs lines 74-82, `_get_diff`: loop `i` from 0 below the minimum of
the two fingerprint lengths, accumulating
`((fp0[i][c] - fp1[i][c]) as f32).abs().sqrt()` for the three channels.
`f32` arithmetic is modelled over `ℝ`. -/
noncomputable def _get_diff (fp0 fp1 : List Delta) : ℝ :=
  (List.range (min fp0.length fp1.length)).foldl
    (fun diff i =>
      diff + Real.sqrt |(((deltaGet fp0 i).1 - (deltaGet fp1 i).1 : ℤ) : ℝ)|
           + Real.sqrt |(((deltaGet fp0 i).2.1 - (deltaGet fp1 i).2.1 : ℤ) : ℝ)|
           + Real.sqrt |(((deltaGet fp0 i).2.2 - (deltaGet fp1 i).2.2 : ℤ) : ℝ)|)
    0

/-- main.rs lines 85-93, `similarity_percentage`: normalize the aggregate
difference against `16 * 16` pixels times 3 channels times 100 units,
subtract from 100, and clamp to `[0, 100]` (Rust's `clamp(0.0, 100.0)` is
`min 100 (max 0 _)` for the non-`NaN` values arising here). -/
noncomputable def similarity_percentage (fp0 fp1 : List Delta) : ℝ :=
  let total_difference := _get_diff fp0 fp1
  let num_pixels : ℝ := 16 * 16
  let max_possible_difference_per_channel : ℝ := 100
  let channels_count : ℝ := 3
  let max_total_difference := num_pixels * channels_count * max_possible_difference_per_channel
  let percentage_similarity := 100 - total_difference / max_total_difference * 100
  min 100 (max 0 percentage_similarity)

lemma foldl_add_eq_sum (f : ℕ → ℝ) :
    ∀ (n : ℕ) (init : ℝ),
    (List.range n).foldl (fun d i => d + f i) init = init + ∑ i ∈ Finset.range n, f i := by
  intro n
  induction n with
  | zero => intro init; simp
  | succ n ih =>
    intro init
    rw [List.range_succ, List.foldl_append, ih, Finset.sum_range_succ]
    simp [add_assoc]

/-- `_get_diff` as a closed-form sum over the matched indices. -/
lemma get_diff_eq_sum (fp0 fp1 : List Delta) :
    _get_diff fp0 fp1 =
      ∑ i ∈ Finset.range (min fp0.length fp1.length),
        (Real.sqrt |(((deltaGet fp0 i).1 - (deltaGet fp1 i).1 : ℤ) : ℝ)| +
         Real.sqrt |(((deltaGet fp0 i).2.1 - (deltaGet fp1 i).2.1 : ℤ) : ℝ)| +
         Real.sqrt |(((deltaGet fp0 i).2.2 - (deltaGet fp1 i).2.2 : ℤ) : ℝ)|) := by
  unfold _get_diff
  have hbody :
      (fun (diff : ℝ) (i : ℕ) =>
        diff + Real.sqrt |(((deltaGet fp0 i).1 - (deltaGet fp1 i).1 : ℤ) : ℝ)|
             + Real.sqrt |(((deltaGet fp0 i).2.1 - (deltaGet fp1 i).2.1 : ℤ) : ℝ)|
             + Real.sqrt |(((deltaGet fp0 i).2.2 - (deltaGet fp1 i).2.2 : ℤ) : ℝ)|) =
      (fun (d : ℝ) (i : ℕ) =>
        d + (Real.sqrt |(((deltaGet fp0 i).1 - (deltaGet fp1 i).1 : ℤ) : ℝ)| +
             Real.sqrt |(((deltaGet fp0 i).2.1 - (deltaGet fp1 i).2.1 : ℤ) : ℝ)| +
             Real.sqrt |(((deltaGet fp0 i).2.2 - (deltaGet fp1 i).2.2 : ℤ) : ℝ)|)) := by
    funext d i
    ring
  rw [hbody, foldl_add_eq_sum, zero_add]

/-- `_get_diff` of a fingerprint against itself vanishes, and the score of
such a pair is exactly 100. -/
lemma get_diff_self (fp : List Delta) : _get_diff fp fp = 0 := by
  rw [get_diff_eq_sum]
  apply Finset.sum_eq_zero
  intro i _
  simp

lemma similarity_percentage_self (fp : List Delta) :
    similarity_percentage fp fp = 100 := by
  unfold similarity_percentage
  rw [get_diff_self]
  norm_num

/-- The pixel encodings outside the four supported ones: the remaining
variants of `image::DynamicImage` (the `_` arm at main.rs line 13). -/
inductive OtherEncoding where
  | L16 | La16 | Rgb16 | Rgba16 | Rgb32F | Rgba32F
deriving DecidableEq, Repr

/-- `image::DynamicImage`, restricted to the pixel buffers: each variant
carries its flat pixel list (8-bit channels as `ℕ`); the unsupported
variants are collapsed to `other` with their encoding tag and a raw
buffer. -/
inductive DynamicImage where
  | ImageRgb8 (pixels : List (ℕ × ℕ × ℕ))
  | ImageRgba8 (pixels : List Rgba)
  | ImageLuma8 (pixels : List ℕ)
  | ImageLumaA8 (pixels : List (ℕ × ℕ))
  | other (encoding : OtherEncoding) (buffer : List ℕ)
deriving DecidableEq, Repr

/-- main.rs lines 7-15, `convert_to_rgba`. A `none` result models the
`panic!` on the `_` arm (the process terminates; no default image and no
recoverable error value is produced). The `ImageRgba8` arm is
`sample_img.clone()`: the buffer is returned unchanged. The per-pixel
expansions on the other three arms are the `image` crate's `into_rgba8`.
Modelled from the spec: `into_rgba8` is external library code (not in
src/); per the spec's mapping, RGB gains alpha 255, grayscale replicates
the intensity to R, G, B with alpha 255, and grayscale+alpha replicates
the intensity and keeps the original alpha. -/
def convert_to_rgba : DynamicImage → Option DynamicImage
  | .ImageRgb8 ps => some (.ImageRgba8 (ps.map (fun p => (p.1, p.2.1, p.2.2, 255))))
  | .ImageRgba8 ps => some (.ImageRgba8 ps)
  | .ImageLuma8 ps => some (.ImageRgba8 (ps.map (fun v => (v, v, v, 255))))
  | .ImageLumaA8 ps => some (.ImageRgba8 (ps.map (fun p => (p.1, p.1, p.1, p.2))))
  | .other _ _ => none

/-- The Rust `Debug` rendering of the metadata `HashMap<usize, i32>`
(main.rs line 126 prints it with `{:?}`), for the at-most-one-entry maps
the program builds. -/
def renderMeta (entries : List (ℕ × ℤ)) : String :=
  "\x7b" ++ String.intercalate ", "
    (entries.map (fun e => toString e.1 ++ ": " ++ toString e.2)) ++ "\x7d"

/-- Rust's `{:.2}` formatting of the similarity value, idealized over `ℝ`:
round to the nearest hundredth and print with exactly two decimals. The
values reachable here are clamped to `[0, 100]`, so the rounded numerator
is nonnegative. -/
noncomputable def fmt2 (x : ℝ) : String :=
  let n : ℤ := ⌊x * 100 + 1 / 2⌋
  toString (n / 100) ++ "." ++ (if n % 100 < 10 then "0" else "") ++ toString (n % 100)

/-- main.rs line 126: `println!("Image {}: {:?}", idx, data.1)`. -/
def imageLine (idx : ℕ) (meta : List (ℕ × ℤ)) : String :=
  "Image " ++ toString idx ++ ": " ++ renderMeta meta

/-- The stdout lines of a successful run of `main` (main.rs lines 124-131),
as a function of the two extracted fingerprints. `ImagesComparer::new`
pairs each fingerprint with an empty metadata map; `compare()` (main.rs
lines 95-98) inserts the aggregate difference truncated to `i32` under key
`1` into image 0's map (the difference is nonnegative, so the `as i32`
truncation is the floor); then `main` prints `"Results:"`, one
`Image idx: map` line per image in enumeration order, and the similarity
line. -/
noncomputable def mainOutput (fp0 fp1 : List Delta) : List String :=
  let afterCompare : List (List Delta × List (ℕ × ℤ)) :=
    [(fp0, [(1, ⌊_get_diff fp0 fp1⌋)]), (fp1, [])]
  "Results:" ::
    (afterCompare.enum.map (fun p => imageLine p.1 p.2.2)) ++
    ["Процент схожести: " ++ fmt2 (similarity_percentage fp0 fp1) ++ "%"]

lemma fmt2_hundred : fmt2 100 = "100.00" := by
  have hfloor : (⌊(100 : ℝ) * 100 + 1 / 2⌋ : ℤ) = 10000 := by
    rw [Int.floor_eq_iff]
    constructor <;> norm_num
  simp only [fmt2, hfloor]
  decide

lemma mainOutput_nil :
    mainOutput [] [] =
      ["Results:", "Image 0: \x7b1: 0\x7d", "Image 1: \x7b\x7d",
       "Процент схожести: 100.00%"] := by
  have h2 : similarity_percentage ([] : List Delta) [] = 100 :=
    similarity_percentage_self []
  simp only [mainOutput, get_diff_self, h2, fmt2_hundred, Int.floor_zero]
  decide

/- ===================== Claim theorems ===================== -/

/-- C1: the aggregate difference of two fingerprints is the sum, over
`i` below the minimum of the two lengths and over the three channels `c`,
of the square root of the absolute channel difference
`|fp0[i][c] - fp1[i][c]|`; indices beyond the shorter fingerprint do not
appear in the sum (trailing deltas of the longer fingerprint are ignored). -/
theorem get_diff_eq_sqrt_sum (fp0 fp1 : List Delta) :
    _get_diff fp0 fp1 =
      ∑ i ∈ Finset.range (min fp0.length fp1.length),
        (Real.sqrt |(((deltaGet fp0 i).1 - (deltaGet fp1 i).1 : ℤ) : ℝ)| +
         Real.sqrt |(((deltaGet fp0 i).2.1 - (deltaGet fp1 i).2.1 : ℤ) : ℝ)| +
         Real.sqrt |(((deltaGet fp0 i).2.2 - (deltaGet fp1 i).2.2 : ℤ) : ℝ)|) :=
  get_diff_eq_sum fp0 fp1

/-- C2: `similarity_percentage` equals
`100 - (aggregate difference / (256 * 3 * 100)) * 100` clamped to
`[0, 100]`, and in particular always lies in the closed interval
`[0, 100]`. -/
theorem similarity_percentage_formula_bounds (fp0 fp1 : List Delta) :
    similarity_percentage fp0 fp1 =
      min 100 (max 0 (100 - _get_diff fp0 fp1 / (256 * 3 * 100) * 100)) ∧
    0 ≤ similarity_percentage fp0 fp1 ∧ similarity_percentage fp0 fp1 ≤ 100 := by
  refine ⟨?_, ?_, ?_⟩
  · simp only [similarity_percentage]
    norm_num
  · simp only [similarity_percentage]
    exact le_min (by norm_num) (le_max_left 0 _)
  · simp only [similarity_percentage]
    exact min_le_left 100 _

/-- C3: over the 16x16 grid in row-major order, the extractor squares the
R, G, B channels of each cell (`colorAtIdx`), and for every cell other
than `(0,0)` (row-major index `i` from 1 to 255) it appends the
componentwise delta against the immediately preceding cell exactly when
the squared color changed; cells with an unchanged color contribute
nothing, and the reference color advances at every cell. -/
theorem get_pixels_diff_characterization (pixels : List Rgba) :
    _get_pixels_diff pixels =
      some ((List.range' 1 255).filterMap (fun i =>
        if colorAtIdx pixels i ≠ colorAtIdx pixels (i - 1)
        then some (mkDelta (colorAtIdx pixels i) (colorAtIdx pixels (i - 1)))
        else none)) :=
  get_pixels_diff_eq_spec pixels

/-- C4: every extracted fingerprint has length at most 255, and each of its
entries arises from a grid cell of row-major index `i` with `1 ≤ i < 256`
at which the squared color changed — never from cell `(0,0)` (index 0),
which serves only as the initial reference color. -/
theorem fingerprint_length_le (pixels : List Rgba) (fp : List Delta)
    (h : _get_pixels_diff pixels = some fp) :
    fp.length ≤ 255 ∧
    ∀ d ∈ fp, ∃ i, 1 ≤ i ∧ i < 256 ∧
      colorAtIdx pixels i ≠ colorAtIdx pixels (i - 1) ∧
      d = mkDelta (colorAtIdx pixels i) (colorAtIdx pixels (i - 1)) := by
  have hspec := get_pixels_diff_eq_spec pixels
  rw [h] at hspec
  have hfp : fp = fingerprintSpec (colorAtIdx pixels) := Option.some.inj hspec
  subst hfp
  constructor
  · calc (fingerprintSpec (colorAtIdx pixels)).length
        ≤ (List.range' 1 255).length := List.length_filterMap_le _ _
      _ = 255 := by simp
  · intro d hd
    obtain ⟨i, hi, hemit⟩ := List.mem_filterMap.mp hd
    have hrange : 1 ≤ i ∧ i < 1 + 255 := List.mem_range'_1.mp hi
    by_cases hch : colorAtIdx pixels i ≠ colorAtIdx pixels (i - 1)
    · rw [if_pos hch] at hemit
      exact ⟨i, hrange.1, by omega, hch, (Option.some.inj hemit).symm⟩
    · rw [if_neg hch] at hemit
      exact absurd hemit (Option.noConfusion)

/-- Witness for C4 at the empty pixel buffer: every cell reads as opaque
black, no color ever changes, and the fingerprint is empty. -/
theorem fingerprint_length_le_witness :
    (([] : List Delta).length ≤ 255 ∧
     ∀ d ∈ ([] : List Delta), ∃ i, 1 ≤ i ∧ i < 256 ∧
       colorAtIdx [] i ≠ colorAtIdx [] (i - 1) ∧
       d = mkDelta (colorAtIdx [] i) (colorAtIdx [] (i - 1))) :=
  fingerprint_length_le [] [] (by decide)

/-- C5: comparing a fingerprint against an equal fingerprint (an image
against itself, or any two empty fingerprints such as those of solid-color
images) yields aggregate difference 0 and similarity 100. -/
theorem equal_fingerprints_full_similarity (fp0 fp1 : List Delta)
    (h : fp0 = fp1) :
    _get_diff fp0 fp1 = 0 ∧ similarity_percentage fp0 fp1 = 100 := by
  subst h
  exact ⟨get_diff_self fp0, similarity_percentage_self fp0⟩

/-- Witness for C5 at the two empty fingerprints (the fingerprints of any
two solid-color images). -/
theorem equal_fingerprints_full_similarity_witness :
    _get_diff [] [] = 0 ∧ similarity_percentage [] [] = 100 :=
  equal_fingerprints_full_similarity [] [] rfl

/-- C6: normalization passes an 8-bit RGBA image through bitwise unchanged;
8-bit RGB gains alpha 255, 8-bit grayscale replicates the intensity to
R, G, B with alpha 255, and 8-bit grayscale+alpha replicates the intensity
and preserves the original alpha. -/
theorem convert_to_rgba_mappings (rgba : List Rgba) (rgb : List (ℕ × ℕ × ℕ))
    (l : List ℕ) (la : List (ℕ × ℕ)) :
    convert_to_rgba (.ImageRgba8 rgba) = some (.ImageRgba8 rgba) ∧
    convert_to_rgba (.ImageRgb8 rgb) =
      some (.ImageRgba8 (rgb.map (fun p => (p.1, p.2.1, p.2.2, 255)))) ∧
    convert_to_rgba (.ImageLuma8 l) =
      some (.ImageRgba8 (l.map (fun v => (v, v, v, 255)))) ∧
    convert_to_rgba (.ImageLumaA8 la) =
      some (.ImageRgba8 (la.map (fun p => (p.1, p.1, p.1, p.2)))) :=
  ⟨rfl, rfl, rfl, rfl⟩

/-- C7: on every image whose pixel encoding is outside the four supported
ones, normalization is the fatal `none` outcome (modelling the process-
terminating Rust `panic!`): it never substitutes a default image and never
returns a recoverable `some` value. -/
theorem convert_to_rgba_unsupported_fatal (enc : OtherEncoding)
    (buf : List ℕ) :
    convert_to_rgba (.other enc buf) = none ∧
    ∀ out : DynamicImage, convert_to_rgba (.other enc buf) ≠ some out :=
  ⟨rfl, fun _ h => Option.noConfusion h⟩

/-- C8: the pixel lookup of the extraction loop is total: a row-major index
beyond the end of the pixel buffer reads as the opaque black pixel
`(0, 0, 0, 255)`, and an in-bounds index reads the actual buffer entry. -/
theorem pixel_lookup_total (pixels : List Rgba) (i : ℕ) :
    (pixels.length ≤ i → pixelAt pixels i = (0, 0, 0, 255)) ∧
    ∀ h : i < pixels.length, pixelAt pixels i = pixels.get ⟨i, h⟩ := by
  constructor
  · intro h
    exact List.getD_eq_default _ _ h
  · intro h
    simp [pixelAt, List.getD_eq_getElem?_getD, List.getElem?_eq_getElem h]

/-- Witness for C8: index 0 is out of bounds for the empty buffer and reads
as opaque black. -/
theorem pixel_lookup_total_witness : pixelAt [] 0 = (0, 0, 0, 255) :=
  (pixel_lookup_total [] 0).1 (by decide)

/-- C9 counterexample: on the concrete run where both fingerprints are
empty, the final stdout line is the Russian
`"Процент схожести: 100.00%"`, so the output is not the list the claim
describes, whose final line would be the literal
`"Similarity percentage: 100.00%"`. -/
theorem main_output_final_line_counterexample :
    mainOutput [] [] ≠
      ["Results:", "Image 0: \x7b1: 0\x7d", "Image 1: \x7b\x7d",
       "Similarity percentage: 100.00%"] := by
  rw [mainOutput_nil]
  decide

/-- C9 (amended): on a successful run, stdout is the literal line
`"Results:"`, then one line per image index of the form
`Image idx: metadata-map` with only image 0 carrying the diagnostic entry
under key 1, then a final line `"Процент схожести: "` followed by the
percentage formatted to two decimal places and `"%"`. -/
theorem main_output_shape (fp0 fp1 : List Delta) :
    mainOutput fp0 fp1 =
      ["Results:",
       imageLine 0 [(1, ⌊_get_diff fp0 fp1⌋)],
       imageLine 1 [],
       "Процент схожести: " ++ fmt2 (similarity_percentage fp0 fp1) ++ "%"] := by
  simp [mainOutput, List.enum, List.enumFrom]

/-- C10: the delta-emission branch never reaches the `unwrap` of an unset
previous color: extraction succeeds (is `some`) on every pixel buffer. -/
theorem extraction_never_hits_unwrap_failure (pixels : List Rgba) :
    (_get_pixels_diff pixels).isSome = true := by
  rw [get_pixels_diff_eq_spec]
  rfl

end ImgAlg
